import Mathlib

/-!
Verification of the `color_organist` backend core
(`color.py`, `gobo_hustler.py`, `gobo_rotator.py`) against its
natural-language specification.

The Python code is shallowly embedded over exact rationals (`ℚ`):
Python floats become `ℚ`, Python lists of three coordinates become
triples, fallible operations (index errors, division by zero) return
`Option`/`Except`.  The external `husl` library (imported by
`color.py` but not part of this repository) is threaded through the
color definitions as two explicit function parameters
`husl_to_rgb_args` / `rgb_to_husl_args`, mirroring the two names
imported at the top of `color.py`.
-/

namespace ColorOrganist

/-- A Python 3-element coordinate list `[c0, c1, c2]`. -/
abbrev Coords := ℚ × ℚ × ℚ

/-- Python `int(q)`: truncation toward zero. -/
def pytrunc (q : ℚ) : ℤ := if q < 0 then -⌊-q⌋ else ⌊q⌋

/-- Python `q % 1.0`: remainder with the divisor's sign, i.e. `q - ⌊q⌋`. -/
def pymod1 (q : ℚ) : ℚ := q - ⌊q⌋

/-- `color.clamp` (an identical `clamp` is imported from `param_gen` by
`gobo_rotator.py`; `param_gen` is not among the provided sources, and the
spec's clamping language (§3, §7) matches this `min`/`max` form):
`min(max(min_val, val), max_val)`. -/
def clamp (val min_val max_val : ℚ) : ℚ := min (max min_val val) max_val

/-- `color.hsv_to_rgb`. -/
def hsv_to_rgb (c : Coords) : Coords :=
  let (hue, saturation, value) := c
  if saturation = 0 then (value, value, value)
  else
    let hue := hue * 6
    let hue := if hue = 6 then 0 else hue
    let sector : ℤ := pytrunc hue
    let v_1 := value * (1 - saturation)
    let v_2 := value * (1 - saturation * (hue - sector))
    let v_3 := value * (1 - saturation * (1 - (hue - sector)))
    if sector = 0 then (value, v_3, v_1)
    else if sector = 1 then (v_2, value, v_1)
    else if sector = 2 then (v_1, value, v_3)
    else if sector = 3 then (v_1, v_2, value)
    else if sector = 4 then (v_3, v_1, value)
    else (value, v_1, v_2)

/-- `color.rgb_to_hsv`. -/
def rgb_to_hsv (c : Coords) : Coords :=
  let (red, green, blue) := c
  let min_val := min red (min green blue)
  let max_val := max red (max green blue)
  let delta := max_val - min_val
  let value := max_val
  if delta = 0 then (0, 0, value)
  else
    let saturation := delta / max_val
    let delta_r := ((max_val - red) / 6 + delta / 2) / delta
    let delta_g := ((max_val - green) / 6 + delta / 2) / delta
    let delta_b := ((max_val - blue) / 6 + delta / 2) / delta
    let hue :=
      if red = max_val then delta_b - delta_g
      else if green = max_val then 1 / 3 + delta_r - delta_b
      else 2 / 3 + delta_g - delta_r
    let hue := if hue < 0 then hue + 1 else if hue > 1 then hue - 1 else hue
    (hue, saturation, value)

/-- `color.rgb_to_husl`: rescales the external library's native ranges
(degrees / percent) to the unit interval.  `rl` is the library function
`rgb_to_husl_args`. -/
def rgb_to_husl (rl : Coords → Coords) (c : Coords) : Coords :=
  let (h, s, l) := rl c
  (h / 360, s / 100, l / 100)

/-- `color.husl_to_rgb`: rescales unit-interval coordinates to the external
library's native ranges.  `hl` is the library function `husl_to_rgb_args`. -/
def husl_to_rgb (hl : Coords → Coords) (c : Coords) : Coords :=
  let (h, s, l) := c
  hl (h * 360, s * 100, l * 100)

/-- The three color-space tags appearing in `space_to_rgb_map` /
`rgb_to_space_map`. -/
inductive Space
  | rgb
  | hsv
  | husl
deriving DecidableEq, Repr

/-- `color.space_to_rgb_map` as a dispatch function. -/
def space_to_rgb (hl : Coords → Coords) : Space → Coords → Coords
  | .rgb => id
  | .hsv => hsv_to_rgb
  | .husl => husl_to_rgb hl

/-- `color.rgb_to_space_map` as a dispatch function. -/
def rgb_to_space (rl : Coords → Coords) : Space → Coords → Coords
  | .rgb => id
  | .hsv => rgb_to_hsv
  | .husl => rgb_to_husl rl

/-- `color.convert_color_space`. -/
def convert_color_space (hl rl : Coords → Coords) (source target : Space)
    (coordinates : Coords) : Coords :=
  rgb_to_space rl target (space_to_rgb hl source coordinates)

/-- The `Color` object: a space tag and a 3-coordinate tuple. -/
structure Color where
  space : Space
  coordinates : Coords
deriving DecidableEq, Repr

/-- `Color.__init__`: stores the space and the coordinates clamped to
the unit interval, one by one. -/
def Color.make (color_space : Space) (coordinates : Coords) : Color :=
  ⟨color_space,
   (clamp coordinates.1 0 1, clamp coordinates.2.1 0 1, clamp coordinates.2.2 0 1)⟩

/-- One coordinate of a 3-tuple, Python `coords[i]`. -/
def coordGet (c : Coords) : Fin 3 → ℚ
  | 0 => c.1
  | 1 => c.2.1
  | 2 => c.2.2

/-- Python `coords[i] = v` on a 3-element list. -/
def coordSet (c : Coords) : Fin 3 → ℚ → Coords
  | 0, v => (v, c.2.1, c.2.2)
  | 1, v => (c.1, v, c.2.2)
  | 2, v => (c.1, c.2.1, v)

/-- `Color.in_color_space`: builds a new `Color` through the constructor
(`Color.__init__`, hence with clamping) from the converted coordinates. -/
def Color.in_color_space (hl rl : Coords → Coords) (c : Color)
    (color_space : Space) : Color :=
  Color.make color_space (convert_color_space hl rl c.space color_space c.coordinates)

/-- `Color.get_coordinate`. -/
def Color.get_coordinate (hl rl : Coords → Coords) (c : Color)
    (color_space : Space) (coordinate_index : Fin 3) : ℚ :=
  coordGet (convert_color_space hl rl c.space color_space c.coordinates) coordinate_index

/-- `Color.set_coordinate`: clamps the value, converts the stored
coordinates to the foreign space, replaces the one axis, and converts back,
storing the result directly (no clamping on the way back). -/
def Color.set_coordinate (hl rl : Coords → Coords) (c : Color)
    (color_space : Space) (coordinate_index : Fin 3) (value : ℚ) : Color :=
  let value := clamp value 0 1
  let shifted := convert_color_space hl rl c.space color_space c.coordinates
  let shifted := coordSet shifted coordinate_index value
  { c with coordinates := convert_color_space hl rl color_space c.space shifted }

/-- `color.add_hue_hsv`: `col_hsv = color.in_hsv(); col_hsv.hue_hsv =
(col_hsv.hue_hsv + value) % 1.0; return col_hsv`.  The `hue_hsv` property
getter/setter are `get_coordinate('hsv', 0)` / `set_coordinate('hsv', 0, ·)`. -/
def add_hue_hsv (hl rl : Coords → Coords) (color : Color) (value : ℚ) : Color :=
  let col_hsv := color.in_color_space hl rl .hsv
  col_hsv.set_coordinate hl rl .hsv 0
    (pymod1 (col_hsv.get_coordinate hl rl .hsv 0 + value))

/-- `Color.__eq__`, fuel-indexed.  The Python body is
`self.in_rgb() == other.in_rgb()`, which compares two `Color` objects with
`==` and therefore re-enters `Color.__eq__` itself; there is no base case.
`fuel` models the Python call-stack budget: `none` means the call at that
depth has not produced a value (CPython raises `RecursionError`). -/
def colorEq (hl rl : Coords → Coords) : ℕ → Color → Color → Option Bool
  | 0, _, _ => none
  | fuel + 1, c, other =>
      colorEq hl rl fuel (c.in_color_space hl rl .rgb) (other.in_color_space hl rl .rgb)

/-- The comparison the spec describes for `Color.__eq__`: element-wise
equality of the two colors' RGB-space coordinate triples. -/
def colorEqSpec (hl rl : Coords → Coords) (c other : Color) : Bool :=
  decide ((c.in_color_space hl rl .rgb).coordinates
    = (other.in_color_space hl rl .rgb).coordinates)

/-- `ColorSwarm`: the `rand_gen` object is not stored; the random source is
passed to `get` as an explicit `randint` function (see `ColorSwarm.get`). -/
structure ColorSwarm (α : Type) where
  random : Bool
  gens : List α
  next : ℕ
deriving Repr

/-- `ColorSwarm.__init__`: stores the flag and the list and sets the cursor
to 0; the `seed` argument only seeds the internal `Random` object (which is
modelled as the `randint` argument of `ColorSwarm.get`, so the seed has no
further effect here).  The body contains no validation and no `raise`; it
always succeeds (the `Except` result mirrors Python's ability to raise,
unused here). -/
def ColorSwarm.init (col_gens : List α) (random : Bool) (seed : Option ℕ) :
    Except String (ColorSwarm α) :=
  Except.ok { random := random, gens := col_gens, next := 0 }

/-- `ColorSwarm.get`.  `randint lo hi` models `self.rand_gen.randint(lo, hi)`.
Generators are modelled as opaque elements of `α`; the returned element is
the generator whose `.get()` Python would call.  `none` models the raised
exceptions on an empty generator list (`ValueError` from `randint` in random
mode, `ZeroDivisionError` from `% 0` otherwise). -/
def ColorSwarm.get (randint : ℕ → ℕ → ℕ) (sw : ColorSwarm α) :
    Option (α × ColorSwarm α) :=
  if sw.random then
    if sw.gens.isEmpty then none
    else
      match sw.gens.get? (randint 0 (sw.gens.length - 1)) with
      | some g => some (g, sw)
      | none => none
  else
    if sw.gens.isEmpty then none
    else
      let i := (sw.next + 1) % sw.gens.length
      match sw.gens.get? i with
      | some g => some (g, { sw with next := i })
      | none => none

/-- `gobo_hustler.validate_iterable` applied to a list input (the
`TypeError` branch for non-iterables is unrepresentable in this typed
embedding).  `if not values: raise ValueError("Must provide at least one value.")`. -/
def validate_iterable (subvalidator : α → β) (items : List α) :
    Except String (List β) :=
  let values := items.map subvalidator
  if values.isEmpty then Except.error "Must provide at least one value."
  else Except.ok values

/-- An `itertools.cycle` over a fixed list, modelled (as spec §9 prescribes)
as the list plus a position: the value yielded at step `k` is
`items[k % len(items)]`; `none` models an iterator that has nothing to
yield (i.e. `cycle` of an empty list, whose `next` never returns). -/
structure Cycle (α : Type) where
  items : List α
deriving Repr

/-- The element the cyclic sequence yields at step `k` (0-based). -/
def Cycle.yield (c : Cycle α) (k : ℕ) : Option α :=
  c.items.get? (k % c.items.length)

/-- The bank dictionary returned by `gobo_hustler.create_banks`, keyed by
`GoboHustler.ALL` / `SINGLE` / `TWO_VALUE`. -/
structure Banks where
  all : Cycle (List ℕ)
  single : Cycle (List ℕ)
  two_value : Cycle (List ℕ)
deriving Repr

/-- The bank-name constants `all | single | two_value`. -/
inductive BankName
  | all
  | single
  | two_value
deriving DecidableEq, Repr

/-- Dictionary lookup `banks[bank_name]`. -/
def Banks.bank (b : Banks) : BankName → Cycle (List ℕ)
  | .all => b.all
  | .single => b.single
  | .two_value => b.two_value

/-- `gobo_hustler.create_banks`. -/
def create_banks (n : ℕ) : Banks :=
  let indices := List.range n
  let every := Cycle.mk [indices]
  let singles := Cycle.mk ((List.range n).map fun i => [i])
  let evens := indices.filter fun i => i % 2 = 0
  let odds := indices.filter fun i => i % 2 = 1
  let two_values := Cycle.mk [evens, odds]
  { all := every, single := singles, two_value := two_values }

/-- `gobo_hustler.Easer`: a target and a current value. -/
structure Easer where
  target : ℚ
  current : ℚ
deriving DecidableEq, Repr

/-- `Easer.ease(dt, easing)`: returns the updated easer together with the
value the Python method returns (`self.current` after the update). -/
def Easer.ease (e : Easer) (dt easing : ℚ) : Easer × ℚ :=
  let dv := e.target - e.current
  let dv_max := dt * easing
  let actual_dv :=
    if |dv| > dv_max then (if dv > 0 then dv_max else -1 * dv_max) else dv
  let e' : Easer := { e with current := e.current + actual_dv }
  (e', e'.current)

/-- `gobo_rotator.GoboSpinna`: a DMX base address and two signed speeds. -/
structure GoboSpinna where
  address : ℕ
  g0 : ℚ
  g1 : ℚ
deriving Repr

/-- `GoboSpinna._render_single`: direction byte and truncated, clamped
speed byte. -/
def render_single (value : ℚ) : ℤ × ℤ :=
  (if value ≤ 0 then 0 else 255, pytrunc (clamp (|value| * 255) 0 255))

/-- `GoboSpinna.render`: writes direction/speed for both gobos at
`address .. address+3` into the DMX buffer (modelled as `ℕ → ℤ`); all four
target positions are distinct, so the final buffer state is this
if-chain. -/
def GoboSpinna.render (g : GoboSpinna) (buf : ℕ → ℤ) : ℕ → ℤ :=
  let p0 := render_single g.g0
  let p1 := render_single g.g1
  fun i =>
    if i = g.address then p0.1
    else if i = g.address + 1 then p0.2
    else if i = g.address + 2 then p1.1
    else if i = g.address + 3 then p1.2
    else buf i

/-- Python stdlib `bisect.bisect_left` on a sorted list: the leftmost
insertion point, i.e. the number of leading elements `< x`.  (The stdlib
function is external to this repository; on sorted input its documented
result is exactly this.) -/
def bisect_left (l : List ℚ) (x : ℚ) : ℕ := (l.takeWhile (fun y => y < x)).length

/-- `gobo_rotator.take_closest`.  `none` models the `IndexError` Python
raises on an empty list. -/
def take_closest (myList : List ℚ) (myNumber : ℚ) : Option ℚ :=
  let pos := bisect_left myList myNumber
  if pos = 0 then myList.head?
  else if pos = myList.length then myList.getLast?
  else do
    let before ← myList.get? (pos - 1)
    let after ← myList.get? pos
    if after - myNumber < myNumber - before then pure after else pure before

/-- `gobo_rotator.delta` on rational values: adjacent differences. -/
def delta (vals : List ℚ) : List ℚ :=
  (vals.zip vals.tail).map fun p => p.2 - p.1

/-- `gobo_rotator.delta` on the integer code axis. -/
def deltaZ (vals : List ℤ) : List ℤ :=
  (vals.zip vals.tail).map fun p => p.2 - p.1

/-- The inner `for x0, s0, ds0 in zip(x, s, ds_dx): if value - x0 < 0: break;
base_s, base_x, base_ds_dx = s0, x0, ds0` loop of `build_lut`, with the
running `(base_s, base_x, base_ds_dx)` accumulator. -/
def findBase : List (ℤ × ℚ × ℚ) → (ℚ × ℤ × ℚ) → ℤ → (ℚ × ℤ × ℚ)
  | [], base, _ => base
  | (x0, s0, ds0) :: rest, base, value =>
      if value - x0 < 0 then base else findBase rest (s0, x0, ds0) value

/-- `gobo_rotator.build_lut`.  `none` models the `IndexError` on
`ds_dx[0]` / `x[0]` when fewer than two measurements are supplied.  Each
table entry is `(speed, value)`, exactly as appended in the source. -/
def build_lut (meas : List (ℤ × ℚ)) : Option (List (ℚ × ℤ)) :=
  let x := meas.map Prod.fst
  let s := meas.map Prod.snd
  let ds_dx := ((delta s).zip (deltaZ x)).map fun p => p.1 / (p.2 : ℚ)
  match x, s, ds_dx with
  | x0 :: xrest, s0 :: _, d0 :: _ =>
      let xlast := (x0 :: xrest).getLast (List.cons_ne_nil _ _)
      let triples := ((x.zip s).zip ds_dx).map fun p => (p.1.1, p.1.2, p.2)
      some <| (List.range (xlast - x0 + 1).toNat).map fun k : ℕ =>
        let value : ℤ := x0 + (k : ℤ)
        let b := findBase triples (s0, x0, d0) value
        (b.1 + ((value - b.2.1 : ℤ) : ℚ) * b.2.2, value)
  | _, _, _ => none

/-! ## Claim C1: `Color.__eq__` -/

/-- C1: the claim says `c == d` compares the two colors' RGB coordinate
triples and yields a boolean for every pair of Colors.  In the code,
`Color.__eq__` evaluates `self.in_rgb() == other.in_rgb()`, which invokes
`Color.__eq__` again on two fresh `Color` objects with no base case: the
comparison never returns, for any call-depth budget `fuel` (CPython raises
`RecursionError`).  This refutes "the comparison yields a boolean for every
pair of Colors". -/
theorem c1_eq_diverges (hl rl : Coords → Coords) (fuel : ℕ) (c d : Color) :
    colorEq hl rl fuel c d = none := by
  induction fuel generalizing c d with
  | zero => rfl
  | succ n ih => exact ih _ _

/-! ## Claim C2: `create_banks` subsets -/

/-- C2 counterexample: for channel count `n = 1`, the `two_value` bank's
cyclic sequence yields the empty subset at step 1 (its `odds` list,
`[i for i in range(1) if i % 2 == 1]`, is empty), refuting "every subset
yielded ... is non-empty" for every `n >= 1`. -/
theorem c2_two_value_empty_subset :
    (create_banks 1).two_value.yield 1 = some [] := by decide

/-- C2 (amended): for every channel count `n ≥ 1` and every bank name, the
bank's cyclic sequence yields a subset at every step (iteration never
terminates); and for `n ≥ 2` every yielded subset is non-empty.  (For
`n = 1` the `two_value` bank's odd-parity subset is empty.) -/
theorem c2_amended (n : ℕ) (name : BankName) (k : ℕ) :
    (1 ≤ n → ((create_banks n).bank name).yield k ≠ none) ∧
    (2 ≤ n → ∀ sub, ((create_banks n).bank name).yield k = some sub → sub ≠ []) := by
  have hmem : ∀ sub, ((create_banks n).bank name).yield k = some sub →
      sub ∈ ((create_banks n).bank name).items := by
    intro sub h
    unfold Cycle.yield at h
    exact List.get?_mem h
  constructor
  · intro h1 hnone
    unfold Cycle.yield at hnone
    rw [List.get?_eq_none] at hnone
    have hlenpos : 0 < ((create_banks n).bank name).items.length := by
      cases name <;> simp [create_banks, Banks.bank] <;> omega
    exact absurd hnone (not_le.mpr (Nat.mod_lt _ hlenpos))
  · intro h2 sub hsub
    have hin := hmem sub hsub
    cases name with
    | all =>
        simp [create_banks, Banks.bank] at hin
        subst hin
        simp [List.range_eq_nil]
        omega
    | single =>
        simp [create_banks, Banks.bank] at hin
        rcases hin with ⟨i, _, hi⟩
        simp [← hi]
    | two_value =>
        simp [create_banks, Banks.bank] at hin
        rcases hin with hin | hin <;> subst hin
        · exact List.ne_nil_of_mem (a := 0)
            (by simp [List.mem_filter, List.mem_range]; omega)
        · exact List.ne_nil_of_mem (a := 1)
            (by simp [List.mem_filter, List.mem_range]; omega)

/-- C2 witness: the amended theorem instantiated at `n = 2`,
`bank = two_value`, step `k = 3`; both hypotheses hold there. -/
theorem c2_amended_witness :
    (1 ≤ 2 → ((create_banks 2).bank .two_value).yield 3 ≠ none) ∧
    (2 ≤ 2 → ∀ sub, ((create_banks 2).bank .two_value).yield 3 = some sub → sub ≠ []) :=
  c2_amended 2 .two_value 3

/-! ## Claim C3: `ColorSwarm` construction with an empty generator list -/

/-- C3 counterexample: `ColorSwarm.__init__` contains no validation and no
`raise`; constructing a swarm from the empty generator list succeeds and
stores the empty list, refuting "construction raises". -/
theorem c3_init_accepts_empty :
    ColorSwarm.init ([] : List Unit) false none
      = Except.ok { random := false, gens := [], next := 0 } := rfl

/-- C3 (amended): constructing a `ColorSwarm` with an empty generator list
is not rejected: construction succeeds (for every random-mode flag and
seed), storing the empty list with cursor 0.  The construction-time error
"Must provide at least one value." is raised by
`gobo_hustler.validate_iterable` on empty input, but `ColorSwarm.__init__`
never calls it. -/
theorem c3_amended (α β : Type) (r : Bool) (s : Option ℕ) (f : α → β) :
    ColorSwarm.init ([] : List α) r s
        = Except.ok { random := r, gens := [], next := 0 }
    ∧ validate_iterable f ([] : List α)
        = Except.error "Must provide at least one value." :=
  ⟨rfl, rfl⟩

/-! ## Claim C4: `Easer.ease` -/

/-- The property C4 states of one `ease(dt, easing)` step. -/
def EaserStepSpec (e : Easer) (dt easing : ℚ) : Prop :=
  |(e.ease dt easing).1.current - e.current| ≤ easing * dt ∧
  0 ≤ ((e.ease dt easing).1.current - e.current) * (e.target - e.current) ∧
  0 ≤ (e.target - (e.ease dt easing).1.current) * (e.target - e.current) ∧
  |e.target - (e.ease dt easing).1.current| ≤ |e.target - e.current| ∧
  (|e.target - e.current| ≤ easing * dt → (e.ease dt easing).2 = e.target) ∧
  (0 < dt → dt < |e.target - e.current| / easing →
    |e.target - (e.ease dt easing).1.current| < |e.target - e.current| ∧
    0 < (e.target - (e.ease dt easing).1.current) * (e.target - e.current))

/-- C4: for every easer state, every `easing > 0` and every `dt ≥ 0`, one
`ease` step changes `current` by at most `easing * dt`, moves it in the
direction of `target` (sign of `target - current` preserved, no
overshoot), returns exactly `target` when `|target - current| ≤ easing *
dt`, and for `0 < dt < |target - current| / easing` the distance to target
strictly decreases with the sign of `target - current` unflipped. -/
theorem c4_easer (e : Easer) (dt easing : ℚ)
    (heasing : 0 < easing) (hdt : 0 ≤ dt) : EaserStepSpec e dt easing := by
  have hm : 0 ≤ dt * easing := mul_nonneg hdt heasing.le
  have h2eq : (e.ease dt easing).2 = (e.ease dt easing).1.current := rfl
  have hcur : (e.ease dt easing).1.current
      = e.current + (if |e.target - e.current| > dt * easing
          then (if e.target - e.current > 0 then dt * easing else -1 * (dt * easing))
          else e.target - e.current) := rfl
  unfold EaserStepSpec
  rw [h2eq, hcur]
  set m := dt * easing with hmdef
  set dv := e.target - e.current with hdvdef
  split_ifs with h1 h2
  · -- |dv| > m and dv > 0
    have habs : |dv| = dv := abs_of_pos h2
    rw [habs] at h1
    have e1 : e.current + m - e.current = m := by ring
    have e2 : e.target - (e.current + m) = dv - m := by rw [hdvdef]; ring
    rw [e1, e2]
    refine ⟨?_, ?_, ?_, ?_, ?_, ?_⟩
    · rw [abs_of_nonneg hm]; linarith [mul_comm dt easing]
    · exact mul_nonneg hm h2.le
    · exact mul_nonneg (by linarith) h2.le
    · rw [habs, abs_of_nonneg (show (0:ℚ) ≤ dv - m by linarith)]; linarith
    · intro hle; rw [habs] at hle; linarith [mul_comm dt easing]
    · intro hdtpos hlt
      have hmpos : 0 < m := by rw [hmdef]; exact mul_pos hdtpos heasing
      constructor
      · rw [habs, abs_of_nonneg (show (0:ℚ) ≤ dv - m by linarith)]; linarith
      · exact mul_pos (by linarith) h2
  · -- |dv| > m and dv ≤ 0
    have hdvle : dv ≤ 0 := not_lt.mp h2
    have habs : |dv| = -dv := abs_of_nonpos hdvle
    rw [habs] at h1
    have e0 : e.current + -1 * m = e.current + (-m) := by ring
    rw [e0]
    have e1 : e.current + (-m) - e.current = -m := by ring
    have e2 : e.target - (e.current + (-m)) = dv + m := by rw [hdvdef]; ring
    rw [e1, e2]
    refine ⟨?_, ?_, ?_, ?_, ?_, ?_⟩
    · rw [abs_neg, abs_of_nonneg hm]; linarith [mul_comm dt easing]
    · nlinarith
    · nlinarith
    · rw [habs, abs_of_nonpos (show dv + m ≤ 0 by linarith)]; linarith
    · intro hle; rw [habs] at hle; linarith [mul_comm dt easing]
    · intro hdtpos hlt
      have hmpos : 0 < m := by rw [hmdef]; exact mul_pos hdtpos heasing
      constructor
      · rw [habs, abs_of_nonpos (show dv + m ≤ 0 by linarith)]; linarith
      · exact mul_pos_of_neg_of_neg (by linarith) (by linarith)
  · -- |dv| ≤ m: exact arrival
    have hle : |dv| ≤ m := not_lt.mp h1
    have e1 : e.current + dv - e.current = dv := by ring
    have e2 : e.target - (e.current + dv) = 0 := by rw [hdvdef]; ring
    rw [e1, e2]
    refine ⟨?_, ?_, ?_, ?_, ?_, ?_⟩
    · linarith [mul_comm dt easing]
    · exact mul_self_nonneg dv
    · simp
    · simpa using abs_nonneg dv
    · intro _; rw [hdvdef]; ring
    · intro hdtpos hlt
      rw [lt_div_iff heasing] at hlt
      rw [← hmdef] at hlt
      linarith

/-- C4 witness: the theorem instantiated at `target = 10`, `current = 0`,
`dt = 1`, `easing = 2`; both hypotheses hold there. -/
theorem c4_easer_witness :
    (0:ℚ) < 2 ∧ (0:ℚ) ≤ 1 ∧ EaserStepSpec ⟨10, 0⟩ 1 2 :=
  ⟨by norm_num, by norm_num, c4_easer ⟨10, 0⟩ 1 2 (by norm_num) (by norm_num)⟩

/-! ## Claim C6: `ColorSwarm.get` in round-robin mode -/

/-- C6: in round-robin (non-random) mode with a non-empty generator list,
`get()` advances the cursor to `(cursor + 1) mod (current generator count)`
before indexing: the call succeeds, the index used is in range for the
current list (whatever the stored cursor was, so shrinking the list between
calls is safe), and a freshly constructed swarm (cursor 0) uses index
`1 mod count` on its first call. -/
theorem c6_round_robin (α : Type) (randint : ℕ → ℕ → ℕ) (sw : ColorSwarm α)
    (hmode : sw.random = false) (hne : sw.gens ≠ []) :
    ∃ g sw', ColorSwarm.get randint sw = some (g, sw') ∧
      sw'.next = (sw.next + 1) % sw.gens.length ∧
      sw'.next < sw.gens.length ∧
      sw'.gens = sw.gens ∧ sw'.random = sw.random ∧
      sw.gens.get? sw'.next = some g ∧
      (sw.next = 0 → sw'.next = 1 % sw.gens.length) := by
  have hpos : 0 < sw.gens.length := List.length_pos.mpr hne
  have hlt : (sw.next + 1) % sw.gens.length < sw.gens.length := Nat.mod_lt _ hpos
  have hget : sw.gens.get? ((sw.next + 1) % sw.gens.length)
      = some (sw.gens.get ⟨(sw.next + 1) % sw.gens.length, hlt⟩) :=
    List.get?_eq_get hlt
  refine ⟨sw.gens.get ⟨(sw.next + 1) % sw.gens.length, hlt⟩,
    { sw with next := (sw.next + 1) % sw.gens.length }, ?_, rfl, hlt, rfl, rfl, hget, ?_⟩
  · unfold ColorSwarm.get
    rw [hmode]
    simp only [Bool.false_eq_true, if_false, List.isEmpty_iff, hne, if_false, hget]
  · intro h0; rw [h0]

/-- C6 witness: a concrete three-generator swarm in round-robin mode with
cursor 0; both hypotheses hold there. -/
theorem c6_round_robin_witness :
    ∃ g sw', ColorSwarm.get (fun _ _ => 0) (⟨false, [7, 8, 9], 0⟩ : ColorSwarm ℕ)
        = some (g, sw') ∧
      sw'.next = (0 + 1) % ([7, 8, 9] : List ℕ).length ∧
      sw'.next < ([7, 8, 9] : List ℕ).length ∧
      sw'.gens = [7, 8, 9] ∧ sw'.random = false ∧
      ([7, 8, 9] : List ℕ).get? sw'.next = some g ∧
      ((0 : ℕ) = 0 → sw'.next = 1 % ([7, 8, 9] : List ℕ).length) :=
  c6_round_robin ℕ (fun _ _ => 0) ⟨false, [7, 8, 9], 0⟩ rfl (by simp)

/-! ## Claim C10: `GoboSpinna.render` -/

/-- The property C10 states of one `render` call. -/
def GoboSpinnaRenderSpec (g : GoboSpinna) (buf : ℕ → ℤ) : Prop :=
  (∀ i, i ≠ g.address → i ≠ g.address + 1 → i ≠ g.address + 2 →
      i ≠ g.address + 3 → g.render buf i = buf i) ∧
  ((g.render buf g.address = 0 ∨ g.render buf g.address = 255) ∧
    (g.render buf g.address = 0 ↔ g.g0 ≤ 0)) ∧
  ((g.render buf (g.address + 2) = 0 ∨ g.render buf (g.address + 2) = 255) ∧
    (g.render buf (g.address + 2) = 0 ↔ g.g1 ≤ 0)) ∧
  (0 ≤ g.render buf (g.address + 1) ∧ g.render buf (g.address + 1) ≤ 255) ∧
  (0 ≤ g.render buf (g.address + 3) ∧ g.render buf (g.address + 3) ≤ 255)

/-- Helper: the speed byte `int(clamp(abs(value) * 255, 0, 255))` lies in
`[0, 255]` for every rational input. -/
theorem render_single_speed_bounds (value : ℚ) :
    0 ≤ (render_single value).2 ∧ (render_single value).2 ≤ 255 := by
  unfold render_single pytrunc
  have hc0 : (0:ℚ) ≤ clamp (|value| * 255) 0 255 := le_min (le_max_left _ _) (by positivity)
  have hc255 : clamp (|value| * 255) 0 255 ≤ 255 := min_le_right _ _
  simp only
  rw [if_neg (not_lt.mpr hc0)]
  constructor
  · exact Int.floor_nonneg.mpr hc0
  · calc (⌊clamp (|value| * 255) 0 255⌋ : ℤ) ≤ ⌊(255:ℚ)⌋ := Int.floor_le_floor hc255
      _ = 255 := by norm_num

/-- C10: `render` writes exactly the four buffer positions `address ..
address+3` (every other position is unchanged); each direction byte is 0 or
255, 0 exactly when the corresponding `g` value is `≤ 0`; each speed byte
is an integer in `[0, 255]` for arbitrary rational `g` values. -/
theorem c10_render (g : GoboSpinna) (buf : ℕ → ℤ) : GoboSpinnaRenderSpec g buf := by
  have hr : ∀ i, g.render buf i =
      if i = g.address then (render_single g.g0).1
      else if i = g.address + 1 then (render_single g.g0).2
      else if i = g.address + 2 then (render_single g.g1).1
      else if i = g.address + 3 then (render_single g.g1).2
      else buf i := fun i => rfl
  have hdir : ∀ v : ℚ, ((render_single v).1 = 0 ∨ (render_single v).1 = 255)
      ∧ ((render_single v).1 = 0 ↔ v ≤ 0) := by
    intro v
    unfold render_single
    by_cases hv : v ≤ 0
    · simp [hv]
    · simp [hv]
  refine ⟨?_, ?_, ?_, ?_, ?_⟩
  · intro i h0 h1 h2 h3
    rw [hr i, if_neg h0, if_neg h1, if_neg h2, if_neg h3]
  · have := hdir g.g0
    rw [hr g.address] at *
    simpa using this
  · have := hdir g.g1
    rw [hr (g.address + 2)]
    have hne0 : g.address + 2 ≠ g.address := by omega
    have hne1 : g.address + 2 ≠ g.address + 1 := by omega
    rw [if_neg hne0, if_neg hne1, if_pos rfl]
    exact this
  · have := render_single_speed_bounds g.g0
    rw [hr (g.address + 1)]
    have hne0 : g.address + 1 ≠ g.address := by omega
    rw [if_neg hne0, if_pos rfl]
    exact this
  · have := render_single_speed_bounds g.g1
    rw [hr (g.address + 3)]
    have hne0 : g.address + 3 ≠ g.address := by omega
    have hne1 : g.address + 3 ≠ g.address + 1 := by omega
    have hne2 : g.address + 3 ≠ g.address + 2 := by omega
    rw [if_neg hne0, if_neg hne1, if_neg hne2, if_pos rfl]
    exact this

/-- C10 witness: the render specification instantiated at a concrete
fixture state and buffer. -/
theorem c10_render_witness :
    GoboSpinnaRenderSpec ⟨5, 1/2, -2⟩ (fun _ => 9) :=
  c10_render ⟨5, 1/2, -2⟩ (fun _ => 9)

/-! ## Claim C8: `take_closest` -/

theorem bisect_left_le_length (l : List ℚ) (x : ℚ) : bisect_left l x ≤ l.length :=
  (List.takeWhile_prefix _).length_le

theorem takeWhile_eq_take_bisect (l : List ℚ) (x : ℚ) :
    l.takeWhile (fun y => y < x) = l.take (bisect_left l x) :=
  List.prefix_iff_eq_take.mp (List.takeWhile_prefix _)

theorem mem_take_bisect_lt (l : List ℚ) (x : ℚ) :
    ∀ y ∈ l.take (bisect_left l x), y < x := by
  intro y hy
  rw [← takeWhile_eq_take_bisect] at hy
  simpa using List.mem_takeWhile_imp hy

theorem get_lt_of_lt_bisect (l : List ℚ) (x : ℚ) {i : ℕ}
    (hi : i < bisect_left l x) (hl : i < l.length) : l.get ⟨i, hl⟩ < x := by
  have hlen : i < (l.take (bisect_left l x)).length := by
    rw [List.length_take]; exact lt_min hi hl
  have hmem : (l.take (bisect_left l x)).get ⟨i, hlen⟩ ∈ l.take (bisect_left l x) :=
    List.get_mem _ _ _
  have heq : (l.take (bisect_left l x)).get ⟨i, hlen⟩ = l.get ⟨i, hl⟩ := by
    simp [List.get_eq_getElem, List.getElem_take]
  rw [heq] at hmem
  exact mem_take_bisect_lt l x _ hmem

theorem drop_bisect_ge (l : List ℚ) (x : ℚ) (hs : l.Sorted (· ≤ ·)) :
    ∀ y ∈ l.drop (bisect_left l x), x ≤ y := by
  induction l with
  | nil => simp
  | cons a t ih =>
    rw [List.sorted_cons] at hs
    by_cases h : a < x
    · have hb : bisect_left (a :: t) x = bisect_left t x + 1 := by
        simp [bisect_left, List.takeWhile_cons, h]
      rw [hb, List.drop_succ_cons]
      exact ih hs.2
    · have hb : bisect_left (a :: t) x = 0 := by
        simp [bisect_left, List.takeWhile_cons, h]
      rw [hb, List.drop_zero]
      intro y hy
      rcases List.mem_cons.mp hy with rfl | hy
      · exact not_lt.mp h
      · exact le_trans (not_lt.mp h) (hs.1 y hy)

/-- C8: for every non-empty ascending-sorted list and every target,
`take_closest` returns some element of the list whose distance to the
target is minimal, and among equally-close elements it returns one that is
`≤` every equally-close element (ties broken toward the smaller value);
concretely, `take_closest [1, 3, 5, 7] 4 = 3`. -/
theorem c8_take_closest (l : List ℚ) (x : ℚ)
    (hs : l.Sorted (· ≤ ·)) (hne : l ≠ []) :
    (∃ r, take_closest l x = some r ∧ r ∈ l ∧
      (∀ y ∈ l, |r - x| ≤ |y - x|) ∧
      (∀ y ∈ l, |y - x| = |r - x| → r ≤ y)) ∧
    take_closest [1, 3, 5, 7] 4 = some 3 := by
  constructor
  · unfold take_closest
    set pos := bisect_left l x with hposdef
    have hposle : pos ≤ l.length := bisect_left_le_length l x
    by_cases h0 : pos = 0
    · rw [if_pos h0, List.head?_eq_head hne]
      have hlp : 0 < l.length := List.length_pos.mpr hne
      have hhead : l.head hne = l.get ⟨0, hlp⟩ := by
        cases l with
        | nil => exact absurd rfl hne
        | cons a t => rfl
      have hall : ∀ y ∈ l, x ≤ y := by
        have := drop_bisect_ge l x hs
        rw [← hposdef, h0, List.drop_zero] at this
        exact this
      have hheadle : ∀ y ∈ l, l.head hne ≤ y := by
        intro y hy
        obtain ⟨⟨i, hil⟩, rfl⟩ := List.mem_iff_get.mp hy
        rw [hhead]
        exact List.Sorted.rel_get_of_le hs (by simp [Fin.mk_le_mk])
      refine ⟨l.head hne, rfl, List.head_mem hne, ?_, ?_⟩
      · intro y hy
        have hxr : x ≤ l.head hne := hall _ (List.head_mem hne)
        have hxy : x ≤ y := hall _ hy
        have hry : l.head hne ≤ y := hheadle _ hy
        rw [abs_of_nonneg (by linarith), abs_of_nonneg (by linarith)]
        linarith
      · intro y hy _
        exact hheadle _ hy
    · by_cases hL : pos = l.length
      · rw [if_neg h0, if_pos hL, List.getLast?_eq_getLast l hne]
        have hlp : 0 < l.length := List.length_pos.mpr hne
        have hlast : l.getLast hne = l.get ⟨l.length - 1, by omega⟩ :=
          List.getLast_eq_get l hne
        have htake : l.take pos = l := by rw [hL, List.take_length]
        have hall : ∀ y ∈ l, y < x := by
          intro y hy
          apply mem_take_bisect_lt l x
          rw [← hposdef, htake]
          exact hy
        have hlastge : ∀ y ∈ l, y ≤ l.getLast hne := by
          intro y hy
          obtain ⟨⟨i, hil⟩, rfl⟩ := List.mem_iff_get.mp hy
          rw [hlast]
          exact List.Sorted.rel_get_of_le hs (by simp [Fin.mk_le_mk]; omega)
        refine ⟨l.getLast hne, rfl, List.getLast_mem hne, ?_, ?_⟩
        · intro y hy
          have hrx : l.getLast hne < x := hall _ (List.getLast_mem hne)
          have hyx : y < x := hall _ hy
          have hyr : y ≤ l.getLast hne := hlastge _ hy
          rw [abs_of_nonpos (by linarith), abs_of_nonpos (by linarith)]
          linarith
        · intro y hy heq
          have hrx : l.getLast hne < x := hall _ (List.getLast_mem hne)
          have hyx : y < x := hall _ hy
          rw [abs_of_nonpos (by linarith), abs_of_nonpos (by linarith)] at heq
          linarith
      · have hposlt : pos < l.length := lt_of_le_of_ne hposle hL
        have hpos1 : pos - 1 < l.length := by omega
        rw [if_neg h0, if_neg hL]
        have hbef : l.get? (pos - 1) = some (l.get ⟨pos - 1, hpos1⟩) :=
          List.get?_eq_get hpos1
        have haft : l.get? pos = some (l.get ⟨pos, hposlt⟩) :=
          List.get?_eq_get hposlt
        set before := l.get ⟨pos - 1, hpos1⟩ with hbefdef
        set after := l.get ⟨pos, hposlt⟩ with haftdef
        rw [hbef, haft]
        simp only [Option.bind_eq_bind, Option.some_bind]
        have hbx : before < x := by
          rw [hbefdef]
          exact get_lt_of_lt_bisect l x (by rw [← hposdef]; omega) hpos1
        have hxa : x ≤ after := by
          have hdg := drop_bisect_ge l x hs
          rw [← hposdef] at hdg
          apply hdg
          rw [List.drop_eq_getElem_cons hposlt]
          exact List.mem_cons_self _ _
        have hdi : ∀ y ∈ l, y ≤ before ∨ after ≤ y := by
          intro y hy
          obtain ⟨⟨i, hil⟩, rfl⟩ := List.mem_iff_get.mp hy
          by_cases hi : i ≤ pos - 1
          · exact Or.inl (List.Sorted.rel_get_of_le hs (by simp [Fin.mk_le_mk]; omega))
          · exact Or.inr (List.Sorted.rel_get_of_le hs (by simp [Fin.mk_le_mk]; omega))
        split_ifs with hcl
        · refine ⟨after, rfl, List.get_mem _ _ _, ?_, ?_⟩
          · intro y hy
            rcases hdi y hy with h | h
            · rw [abs_of_nonneg (by linarith), abs_of_nonpos (by linarith)]
              linarith
            · rw [abs_of_nonneg (by linarith), abs_of_nonneg (by linarith)]
              linarith
          · intro y hy heq
            rcases hdi y hy with h | h
            · rw [abs_of_nonpos (by linarith), abs_of_nonneg (by linarith)] at heq
              linarith
            · exact h
        · push_neg at hcl
          refine ⟨before, rfl, List.get_mem _ _ _, ?_, ?_⟩
          · intro y hy
            rcases hdi y hy with h | h
            · rw [abs_of_nonpos (by linarith), abs_of_nonpos (by linarith)]
              linarith
            · rw [abs_of_nonpos (by linarith), abs_of_nonneg (by linarith)]
              linarith
          · intro y hy heq
            rcases hdi y hy with h | h
            · rw [abs_of_nonpos (by linarith), abs_of_nonpos (by linarith)] at heq
              linarith
            · linarith
  · unfold take_closest bisect_left
    norm_num [List.takeWhile]

/-- C8 witness: the theorem instantiated at the sorted list `[1, 3, 5, 7]`
with target `4`; both hypotheses hold there. -/
theorem c8_take_closest_witness :
    (∃ r, take_closest [1, 3, 5, 7] 4 = some r ∧ r ∈ ([1, 3, 5, 7] : List ℚ) ∧
      (∀ y ∈ ([1, 3, 5, 7] : List ℚ), |r - 4| ≤ |y - 4|) ∧
      (∀ y ∈ ([1, 3, 5, 7] : List ℚ), |y - 4| = |r - 4| → r ≤ y)) ∧
    take_closest [1, 3, 5, 7] 4 = some 3 :=
  c8_take_closest [1, 3, 5, 7] 4
    (by norm_num [List.Sorted, List.pairwise_cons]) (by simp)

/-! ## Claim C5: `build_lut` -/

/-- The base-sample selection the spec describes: among the samples paired
with the slope of the segment originating at them (i.e. all but the last
sample, which originates no segment), the *last* one whose code is `≤` the
target code; `dflt` when no sample's code is `≤` the target code. -/
def lutSpecBase (pairs : List (ℤ × ℚ × ℚ)) (dflt : ℚ × ℤ × ℚ) (c : ℤ) : ℚ × ℤ × ℚ :=
  ((pairs.filter fun p => p.1 ≤ c).map fun p => (p.2.1, p.1, p.2.2)).getLastD dflt

/-- The table the spec describes for `build_lut`: for every integer code
from the first sample's code to the last sample's code, linear
extrapolation from the last sample whose code is `≤` the target code using
the slope of the segment originating at that sample (so the final code
reuses the last interior segment's slope). -/
def build_lut_spec (meas : List (ℤ × ℚ)) : Option (List (ℚ × ℤ)) :=
  let x := meas.map Prod.fst
  let s := meas.map Prod.snd
  let ds_dx := ((delta s).zip (deltaZ x)).map fun p => p.1 / (p.2 : ℚ)
  match x, s, ds_dx with
  | x0 :: xrest, s0 :: _, d0 :: _ =>
      let xlast := (x0 :: xrest).getLast (List.cons_ne_nil _ _)
      let triples := ((x.zip s).zip ds_dx).map fun p => (p.1.1, p.1.2, p.2)
      some <| (List.range (xlast - x0 + 1).toNat).map fun k : ℕ =>
        let value : ℤ := x0 + (k : ℤ)
        let b := lutSpecBase triples (s0, x0, d0) value
        (b.1 + ((value - b.2.1 : ℤ) : ℚ) * b.2.2, value)
  | _, _, _ => none

theorem pairwise_zip_left {α β : Type} {R : α → α → Prop} :
    ∀ (l : List α) (m : List β), l.Pairwise R →
      (l.zip m).Pairwise (fun p q => R p.1 q.1) := by
  intro l
  induction l with
  | nil => intro m _; simp
  | cons a t ih =>
    intro m hp
    cases m with
    | nil => simp
    | cons b u =>
      rw [List.pairwise_cons] at hp
      rw [List.zip_cons_cons, List.pairwise_cons]
      refine ⟨?_, ih u hp.2⟩
      intro p hpm
      obtain ⟨pa, pb⟩ := p
      exact hp.1 pa (List.of_mem_zip hpm).1

/-- The `break`-terminated scan of `build_lut`'s inner loop picks exactly
the last listed sample whose code is `≤` the target code, provided the
codes are strictly increasing. -/
theorem findBase_eq_lutSpecBase (pairs : List (ℤ × ℚ × ℚ)) (dflt : ℚ × ℤ × ℚ)
    (c : ℤ) (hs : pairs.Pairwise (fun p q => p.1 < q.1)) :
    findBase pairs dflt c = lutSpecBase pairs dflt c := by
  induction pairs generalizing dflt with
  | nil => rfl
  | cons p rest ih =>
    obtain ⟨x0, s0, d0⟩ := p
    rw [List.pairwise_cons] at hs
    unfold findBase
    by_cases h : c - x0 < 0
    · rw [if_pos h]
      have hfilter : ((x0, s0, d0) :: rest).filter (fun p => p.1 ≤ c) = [] := by
        rw [List.filter_eq_nil]
        intro q hq
        rcases List.mem_cons.mp hq with rfl | hq
        · simp; omega
        · have := hs.1 q hq
          simp
          omega
      unfold lutSpecBase
      rw [hfilter, List.map_nil, List.getLastD_nil]
    · rw [if_neg h]
      rw [ih (s0, x0, d0) hs.2]
      have hx0 : x0 ≤ c := by omega
      unfold lutSpecBase
      rw [List.filter_cons_of_pos (by simpa using hx0), List.map_cons,
        List.getLastD_cons]

theorem length_delta (l : List ℚ) : (delta l).length = l.length - 1 := by
  simp only [delta, List.length_map, List.length_zip, List.length_tail]
  exact min_eq_right (Nat.sub_le _ _)

theorem length_deltaZ (l : List ℤ) : (deltaZ l).length = l.length - 1 := by
  simp only [deltaZ, List.length_map, List.length_zip, List.length_tail]
  exact min_eq_right (Nat.sub_le _ _)

/-- On lists of at least two samples with strictly increasing codes,
`build_lut` produces exactly the spec's table. -/
theorem build_lut_eq_spec (meas : List (ℤ × ℚ)) (hlen : 2 ≤ meas.length)
    (hsorted : (meas.map Prod.fst).Pairwise (· < ·)) :
    build_lut meas = build_lut_spec meas := by
  obtain ⟨d0, dr, hd⟩ : ∃ d0 dr,
      ((delta (meas.map Prod.snd)).zip (deltaZ (meas.map Prod.fst))).map
        (fun p => p.1 / (p.2 : ℚ)) = d0 :: dr := by
    cases hdd : ((delta (meas.map Prod.snd)).zip (deltaZ (meas.map Prod.fst))).map
        (fun p => p.1 / (p.2 : ℚ)) with
    | nil =>
        exfalso
        have := congrArg List.length hdd
        simp [List.length_zip, length_delta, length_deltaZ] at this
        omega
    | cons d0 dr => exact ⟨d0, dr, rfl⟩
  obtain ⟨x0, xr, hx⟩ : ∃ x0 xr, meas.map Prod.fst = x0 :: xr := by
    cases meas with
    | nil => simp at hlen
    | cons p m => exact ⟨p.1, m.map Prod.fst, by simp⟩
  obtain ⟨s0, sr, hs0⟩ : ∃ s0 sr, meas.map Prod.snd = s0 :: sr := by
    cases meas with
    | nil => simp at hlen
    | cons p m => exact ⟨p.2, m.map Prod.snd, by simp⟩
  rw [hx] at hsorted
  simp only [build_lut, build_lut_spec]
  rw [hd, hx, hs0]
  split
  · rename_i xA sA dA xa xrest sa stail da dtail heqx heqs heqd
    injection heqx with hx1 hx1t
    injection heqs with hs1 hs1t
    injection heqd with hd1 hd1t
    subst hx1 hx1t hs1 hs1t hd1 hd1t
    have hT : ((((x0 :: xr).zip (s0 :: sr)).zip (d0 :: dr)).map
        (fun p => (p.1.1, p.1.2, p.2))).Pairwise
          (fun p q : ℤ × ℚ × ℚ => p.1 < q.1) := by
      rw [List.pairwise_map]
      exact pairwise_zip_left _ _ (pairwise_zip_left _ _ hsorted)
    congr 1
    apply List.map_congr_left
    intro k _
    rw [findBase_eq_lutSpecBase _ _ _ hT]
  · rename_i hno
    exact (hno x0 xr s0 sr d0 dr rfl rfl rfl).elim

/-- On lists of at least two samples, `build_lut` succeeds. -/
theorem build_lut_isSome (meas : List (ℤ × ℚ)) (hlen : 2 ≤ meas.length) :
    ∃ t, build_lut meas = some t := by
  obtain ⟨d0, dr, hd⟩ : ∃ d0 dr,
      ((delta (meas.map Prod.snd)).zip (deltaZ (meas.map Prod.fst))).map
        (fun p => p.1 / (p.2 : ℚ)) = d0 :: dr := by
    cases hdd : ((delta (meas.map Prod.snd)).zip (deltaZ (meas.map Prod.fst))).map
        (fun p => p.1 / (p.2 : ℚ)) with
    | nil =>
        exfalso
        have := congrArg List.length hdd
        simp [List.length_zip, length_delta, length_deltaZ] at this
        omega
    | cons d0 dr => exact ⟨d0, dr, rfl⟩
  obtain ⟨x0, xr, hx⟩ : ∃ x0 xr, meas.map Prod.fst = x0 :: xr := by
    cases meas with
    | nil => simp at hlen
    | cons p m => exact ⟨p.1, m.map Prod.fst, by simp⟩
  obtain ⟨s0, sr, hs0⟩ : ∃ s0 sr, meas.map Prod.snd = s0 :: sr := by
    cases meas with
    | nil => simp at hlen
    | cons p m => exact ⟨p.2, m.map Prod.snd, by simp⟩
  suffices h : build_lut meas ≠ none by
    cases hopt : build_lut meas with
    | none => exact absurd hopt h
    | some t => exact ⟨t, rfl⟩
  intro hnone
  simp only [build_lut] at hnone
  rw [hd, hx, hs0] at hnone
  split at hnone
  · exact Option.some_ne_none _ hnone
  · rename_i hno
    exact (hno x0 xr s0 sr d0 dr rfl rfl rfl).elim

/-- C5: for every sample list of at least 2 entries sorted strictly
increasing in code, `build_lut` succeeds and produces exactly the table
described by the spec (`build_lut_spec`: for each integer code in the
sample span, linear extrapolation from the last segment-originating sample
whose code is `≤` that code, using that segment's slope, the final code
reusing the last interior segment's slope); concretely, on
`[(128, 0.00479), (137, 0.01), (255, 0.43)]` the entry for code 132 lies
strictly between 0.00479 and 0.01 and the entry for code 255 equals
0.43. -/
theorem c5_build_lut (meas : List (ℤ × ℚ)) (hlen : 2 ≤ meas.length)
    (hsorted : (meas.map Prod.fst).Pairwise (· < ·)) :
    (∃ table, build_lut meas = some table ∧ build_lut_spec meas = some table) ∧
    (∃ sp, (build_lut [(128, 479/100000), (137, 1/100), (255, 43/100)]).bind
        (fun t => t.get? 4) = some (sp, 132) ∧
      479/100000 < sp ∧ sp < 1/100) ∧
    (build_lut [(128, 479/100000), (137, 1/100), (255, 43/100)]).bind
        (fun t => t.get? 127) = some (43/100, 255) := by
  refine ⟨?_, ?_, ?_⟩
  · obtain ⟨t, ht⟩ := build_lut_isSome meas hlen
    exact ⟨t, ht, (build_lut_eq_spec meas hlen hsorted) ▸ ht⟩
  · refine ⟨1279/180000, ?_, by norm_num, by norm_num⟩
    rw [show build_lut [(128, 479/100000), (137, 1/100), (255, 43/100)]
        = some ((List.range 128).map fun k : ℕ =>
          let value : ℤ := 128 + (k : ℤ)
          let b := findBase [(128, 479/100000, (1/100 - 479/100000) / ((137 - 128 : ℤ) : ℚ)),
              (137, 1/100, (43/100 - 1/100) / ((255 - 137 : ℤ) : ℚ))]
            (479/100000, 128, (1/100 - 479/100000) / ((137 - 128 : ℤ) : ℚ)) value
          (b.1 + ((value - b.2.1 : ℤ) : ℚ) * b.2.2, value)) from ?_]
    · rw [Option.some_bind, List.get?_map, List.get?_range (by norm_num : 4 < 128),
        Option.map_some']
      simp only [findBase]
      norm_num
    · simp only [build_lut, delta, deltaZ, List.map_cons, List.map_nil, List.tail_cons,
        List.zip_cons_cons, List.zip_nil_right]
      norm_num [List.getLast]
      rfl
  · rw [show build_lut [(128, 479/100000), (137, 1/100), (255, 43/100)]
        = some ((List.range 128).map fun k : ℕ =>
          let value : ℤ := 128 + (k : ℤ)
          let b := findBase [(128, 479/100000, (1/100 - 479/100000) / ((137 - 128 : ℤ) : ℚ)),
              (137, 1/100, (43/100 - 1/100) / ((255 - 137 : ℤ) : ℚ))]
            (479/100000, 128, (1/100 - 479/100000) / ((137 - 128 : ℤ) : ℚ)) value
          (b.1 + ((value - b.2.1 : ℤ) : ℚ) * b.2.2, value)) from ?_]
    · rw [Option.some_bind, List.get?_map, List.get?_range (by norm_num : 127 < 128),
        Option.map_some']
      simp only [findBase]
      norm_num
    · simp only [build_lut, delta, deltaZ, List.map_cons, List.map_nil, List.tail_cons,
        List.zip_cons_cons, List.zip_nil_right]
      norm_num [List.getLast]
      rfl

/-- C5 witness: the theorem instantiated at the three measured Roto-Q
samples; both hypotheses hold there. -/
theorem c5_build_lut_witness :
    (∃ table, build_lut [(128, 479/100000), (137, 1/100), (255, 43/100)] = some table ∧
      build_lut_spec [(128, 479/100000), (137, 1/100), (255, 43/100)] = some table) ∧
    (∃ sp, (build_lut [(128, 479/100000), (137, 1/100), (255, 43/100)]).bind
        (fun t => t.get? 4) = some (sp, 132) ∧
      479/100000 < sp ∧ sp < 1/100) ∧
    (build_lut [(128, 479/100000), (137, 1/100), (255, 43/100)]).bind
        (fun t => t.get? 127) = some (43/100, 255) :=
  c5_build_lut [(128, 479/100000), (137, 1/100), (255, 43/100)]
    (by norm_num) (by norm_num [List.pairwise_cons])

/-! ## Shared color-space range and round-trip lemmas (for C7 and C9) -/

/-- Membership of a coordinate triple in the unit cube `[0,1]^3`. -/
def inUnit (c : Coords) : Prop :=
  0 ≤ c.1 ∧ c.1 ≤ 1 ∧ 0 ≤ c.2.1 ∧ c.2.1 ≤ 1 ∧ 0 ≤ c.2.2 ∧ c.2.2 ≤ 1

theorem clamp01_mem (v : ℚ) : 0 ≤ clamp v 0 1 ∧ clamp v 0 1 ≤ 1 :=
  ⟨le_min (le_trans (le_max_left _ _) (le_refl _)) zero_le_one, min_le_right _ _⟩

theorem clamp01_eq_self (v : ℚ) (h0 : 0 ≤ v) (h1 : v ≤ 1) : clamp v 0 1 = v := by
  unfold clamp
  rw [max_eq_right h0, min_eq_left h1]

theorem pymod1_nonneg (q : ℚ) : 0 ≤ pymod1 q := sub_nonneg.mpr (Int.floor_le q)

theorem pymod1_lt_one (q : ℚ) : pymod1 q < 1 := by
  have := Int.lt_floor_add_one q
  unfold pymod1
  linarith

theorem pymod1_add_one (q : ℚ) (h0 : 0 ≤ q) (h1 : q < 1) : pymod1 (q + 1) = q := by
  unfold pymod1
  have hq : ⌊q⌋ = 0 := Int.floor_eq_zero_iff.mpr ⟨h0, h1⟩
  have : ⌊q + 1⌋ = ⌊q⌋ + 1 := Int.floor_add_one q
  rw [this, hq]
  push_cast
  ring

theorem hsv_to_rgb_mem (c : Coords) (hc : inUnit c) : inUnit (hsv_to_rgb c) := by
  obtain ⟨h, s, v⟩ := c
  obtain ⟨hh0, hh1, hs0, hs1, hv0, hv1⟩ := hc
  simp only [hsv_to_rgb]
  by_cases hs : s = 0
  · rw [if_pos hs]
    exact ⟨hv0, hv1, hv0, hv1, hv0, hv1⟩
  · rw [if_neg hs]
    set H : ℚ := if h * 6 = 6 then 0 else h * 6 with hH
    have hH0 : 0 ≤ H := by
      rw [hH]
      split_ifs
      · exact le_refl 0
      · positivity
    have hptr : pytrunc H = ⌊H⌋ := if_neg (not_lt.mpr hH0)
    rw [hptr]
    set f : ℚ := H - (⌊H⌋ : ℚ) with hf
    have hf0 : 0 ≤ f := sub_nonneg.mpr (Int.floor_le H)
    have hf1 : f < 1 := by
      have := Int.lt_floor_add_one H
      rw [hf]; linarith
    have hsf0 : 0 ≤ s * f := mul_nonneg hs0 hf0
    have hsf1 : s * f ≤ 1 := by nlinarith
    have hsg0 : 0 ≤ s * (1 - f) := mul_nonneg hs0 (by linarith)
    have hsg1 : s * (1 - f) ≤ 1 := by nlinarith
    have hb1 : 0 ≤ v * (1 - s) ∧ v * (1 - s) ≤ 1 :=
      ⟨mul_nonneg hv0 (by linarith), by nlinarith⟩
    have hb2 : 0 ≤ v * (1 - s * f) ∧ v * (1 - s * f) ≤ 1 :=
      ⟨mul_nonneg hv0 (by linarith), by nlinarith⟩
    have hb3 : 0 ≤ v * (1 - s * (1 - f)) ∧ v * (1 - s * (1 - f)) ≤ 1 :=
      ⟨mul_nonneg hv0 (by linarith), by nlinarith⟩
    split_ifs
    · exact ⟨hv0, hv1, hb3.1, hb3.2, hb1.1, hb1.2⟩
    · exact ⟨hb2.1, hb2.2, hv0, hv1, hb1.1, hb1.2⟩
    · exact ⟨hb1.1, hb1.2, hv0, hv1, hb3.1, hb3.2⟩
    · exact ⟨hb1.1, hb1.2, hb2.1, hb2.2, hv0, hv1⟩
    · exact ⟨hb3.1, hb3.2, hb1.1, hb1.2, hv0, hv1⟩
    · exact ⟨hv0, hv1, hb1.1, hb1.2, hb2.1, hb2.2⟩

theorem rgb_to_hsv_mem (c : Coords) (hc : inUnit c) : inUnit (rgb_to_hsv c) := by
  obtain ⟨r, g, b⟩ := c
  obtain ⟨hr0, hr1, hg0, hg1, hb0, hb1⟩ := hc
  simp only [rgb_to_hsv]
  set mn := min r (min g b) with hmn
  set mx := max r (max g b) with hmx
  have hmn0 : 0 ≤ mn := le_min hr0 (le_min hg0 hb0)
  have hmx1 : mx ≤ 1 := max_le hr1 (max_le hg1 hb1)
  have hmnr : mn ≤ r := min_le_left _ _
  have hmng : mn ≤ g := le_trans (min_le_right _ _) (min_le_left _ _)
  have hmnb : mn ≤ b := le_trans (min_le_right _ _) (min_le_right _ _)
  have hrmx : r ≤ mx := le_max_left _ _
  have hgmx : g ≤ mx := le_trans (le_max_left _ _) (le_max_right _ _)
  have hbmx : b ≤ mx := le_trans (le_max_right _ _) (le_max_right _ _)
  have hmx0 : 0 ≤ mx := le_trans hr0 hrmx
  by_cases hd : mx - mn = 0
  · rw [if_pos hd]
    exact ⟨le_refl 0, zero_le_one, le_refl 0, zero_le_one, hmx0, hmx1⟩
  · rw [if_neg hd]
    have hdpos : 0 < mx - mn := lt_of_le_of_ne (by linarith) (Ne.symm hd)
    have hmxpos : 0 < mx := by linarith
    have hsat0 : 0 ≤ (mx - mn) / mx := div_nonneg (by linarith) hmxpos.le
    have hsat1 : (mx - mn) / mx ≤ 1 := by
      rw [div_le_one hmxpos]; linarith
    have hdX : ∀ X : ℚ, mn ≤ X → X ≤ mx →
        1/2 ≤ ((mx - X) / 6 + (mx - mn) / 2) / (mx - mn) ∧
        ((mx - X) / 6 + (mx - mn) / 2) / (mx - mn) ≤ 2/3 := by
      intro X hX1 hX2
      constructor
      · rw [le_div_iff₀ hdpos]; linarith
      · rw [div_le_iff₀ hdpos]; linarith
    have hdr := hdX r hmnr hrmx
    have hdg := hdX g hmng hgmx
    have hdb := hdX b hmnb hbmx
    split_ifs <;>
      exact ⟨by linarith, by linarith, hsat0, hsat1, hmx0, hmx1⟩

set_option maxHeartbeats 2000000 in
theorem hsv_roundtrip (h s v : ℚ) (hh0 : 0 ≤ h) (hh1 : h < 1)
    (hs0 : 0 < s) (hv0 : 0 < v) :
    rgb_to_hsv (hsv_to_rgb (h, s, v)) = (h, s, v) := by
  simp only [hsv_to_rgb]
  rw [if_neg hs0.ne']
  have h66 : ¬(h * 6 = 6) := by intro hq; linarith
  rw [if_neg h66]
  have hH0 : (0:ℚ) ≤ h * 6 := by positivity
  have hptr : pytrunc (h * 6) = ⌊h * 6⌋ := if_neg (not_lt.mpr hH0)
  rw [hptr]
  have hk0 : 0 ≤ ⌊h * 6⌋ := Int.floor_nonneg.mpr hH0
  have hk5 : ⌊h * 6⌋ < 6 := Int.floor_lt.mpr (by push_cast; linarith)
  set f : ℚ := h * 6 - (⌊h * 6⌋ : ℚ) with hfdef
  have hf0 : 0 ≤ f := sub_nonneg.mpr (Int.floor_le _)
  have hf1 : f < 1 := by
    have := Int.lt_floor_add_one (h * 6)
    rw [hfdef]; push_cast; linarith
  have hk : ⌊h * 6⌋ = 0 ∨ ⌊h * 6⌋ = 1 ∨ ⌊h * 6⌋ = 2 ∨ ⌊h * 6⌋ = 3 ∨
      ⌊h * 6⌋ = 4 ∨ ⌊h * 6⌋ = 5 := by omega
  rcases hk with hk | hk | hk | hk | hk | hk <;> rw [hk] at hfdef ⊢
  · -- sector 0: (v, v3, v1)
    rw [if_pos rfl]
    have hh : h = (0 + f) / 6 := by rw [hfdef]; push_cast; ring
    set A := v * (1 - s * (1 - f)) with hA
    set B := v * (1 - s) with hB
    have hBA : B ≤ A := by
      rw [hA, hB]; nlinarith [mul_nonneg (mul_nonneg hv0.le hs0.le) hf0]
    have hAv : A < v := by
      rw [hA]; nlinarith [mul_pos (mul_pos hv0 hs0) (show (0:ℚ) < 1 - f by linarith)]
    have hBv : B < v := by
      rw [hB]; nlinarith [mul_pos hv0 hs0]
    simp only [rgb_to_hsv]
    rw [min_eq_right hBA, max_eq_left hBA, min_eq_right hBv.le, max_eq_left hAv.le]
    have hD : v - B = v * s := by rw [hB]; ring
    have hDne : ¬(v - B = 0) := by rw [hD]; exact (mul_pos hv0 hs0).ne'
    rw [if_neg hDne, if_pos rfl]
    have hsat : (v - B) / v = s := by rw [hD]; exact mul_div_cancel_left₀ s hv0.ne'
    have hhue : ((v - B)/6 + (v - B)/2)/(v - B) - ((v - A)/6 + (v - B)/2)/(v - B) = f/6 := by
      rw [hA, hB]
      have hvs : v * s ≠ 0 := (mul_pos hv0 hs0).ne'
      field_simp
      ring
    rw [hhue]
    rw [if_neg (not_lt.mpr (by positivity : (0:ℚ) ≤ f/6))]
    rw [if_neg (not_lt.mpr (by linarith : f/6 ≤ 1))]
    rw [hsat]
    have hfh : f/6 = h := by rw [hh]; ring
    rw [hfh]
  · -- sector 1: (v2, v, v1)
    rw [if_neg (by decide), if_pos rfl]
    have hh : h = (1 + f) / 6 := by rw [hfdef]; push_cast; ring
    set A := v * (1 - s * f) with hA
    set B := v * (1 - s) with hB
    have hBA : B ≤ A := by
      rw [hA, hB]
      nlinarith [mul_nonneg (mul_nonneg hv0.le hs0.le) (show (0:ℚ) ≤ 1 - f by linarith)]
    have hAv : A ≤ v := by
      rw [hA]; nlinarith [mul_nonneg (mul_nonneg hv0.le hs0.le) hf0]
    have hBv : B < v := by
      rw [hB]; nlinarith [mul_pos hv0 hs0]
    simp only [rgb_to_hsv]
    rw [min_eq_right hBv.le, min_eq_right hBA, max_eq_left hBv.le, max_eq_right hAv]
    have hD : v - B = v * s := by rw [hB]; ring
    have hDne : ¬(v - B = 0) := by rw [hD]; exact (mul_pos hv0 hs0).ne'
    rw [if_neg hDne]
    by_cases hred : A = v
    · rw [if_pos hred]
      have hsf : s * f = 0 := by
        have h1 : v * (s * f) = 0 := by rw [hA] at hred; nlinarith [hred]
        rcases mul_eq_zero.mp h1 with h2 | h2
        · exact absurd h2 hv0.ne'
        · exact h2
      have hfz : f = 0 := by
        rcases mul_eq_zero.mp hsf with h2 | h2
        · exact absurd h2 hs0.ne'
        · exact h2
      have hhue : ((v - B)/6 + (v - B)/2)/(v - B) - ((v - v)/6 + (v - B)/2)/(v - B)
          = 1/6 := by
        rw [hD]
        have hvs : v * s ≠ 0 := (mul_pos hv0 hs0).ne'
        field_simp
        ring
      rw [hhue]
      rw [if_neg (by norm_num), if_neg (by norm_num)]
      rw [show (v - B)/v = s from by rw [hD]; exact mul_div_cancel_left₀ s hv0.ne']
      have : (1:ℚ)/6 = h := by rw [hh, hfz]; norm_num
      rw [this]
    · rw [if_neg hred, if_pos rfl]
      have hhue : 1/3 + ((v - A)/6 + (v - B)/2)/(v - B) - ((v - B)/6 + (v - B)/2)/(v - B)
          = (1 + f)/6 := by
        rw [hA, hB]
        have hvs : v * s ≠ 0 := (mul_pos hv0 hs0).ne'
        field_simp
        ring
      rw [hhue]
      rw [if_neg (not_lt.mpr (by linarith : (0:ℚ) ≤ (1 + f)/6))]
      rw [if_neg (not_lt.mpr (by linarith : (1 + f)/6 ≤ 1))]
      rw [show (v - B)/v = s from by rw [hD]; exact mul_div_cancel_left₀ s hv0.ne']
      rw [show (1 + f)/6 = h from hh.symm]
  · -- sector 2: (v1, v, v3)
    rw [if_neg (by decide), if_neg (by decide), if_pos rfl]
    have hh : h = (2 + f) / 6 := by rw [hfdef]; push_cast; ring
    set C := v * (1 - s * (1 - f)) with hC
    set B := v * (1 - s) with hB
    have hBC : B ≤ C := by
      rw [hC, hB]; nlinarith [mul_nonneg (mul_nonneg hv0.le hs0.le) hf0]
    have hCv : C < v := by
      rw [hC]; nlinarith [mul_pos (mul_pos hv0 hs0) (show (0:ℚ) < 1 - f by linarith)]
    have hBv : B < v := by
      rw [hB]; nlinarith [mul_pos hv0 hs0]
    simp only [rgb_to_hsv]
    rw [min_eq_right hCv.le, min_eq_left hBC, max_eq_left hCv.le, max_eq_right hBv.le]
    have hD : v - B = v * s := by rw [hB]; ring
    have hDne : ¬(v - B = 0) := by rw [hD]; exact (mul_pos hv0 hs0).ne'
    rw [if_neg hDne, if_neg hBv.ne, if_pos rfl]
    have hhue : 1/3 + ((v - B)/6 + (v - B)/2)/(v - B) - ((v - C)/6 + (v - B)/2)/(v - B)
        = (2 + f)/6 := by
      rw [hC, hB]
      have hvs : v * s ≠ 0 := (mul_pos hv0 hs0).ne'
      field_simp
      ring
    rw [hhue]
    rw [if_neg (not_lt.mpr (by linarith : (0:ℚ) ≤ (2 + f)/6))]
    rw [if_neg (not_lt.mpr (by linarith : (2 + f)/6 ≤ 1))]
    rw [show (v - B)/v = s from by rw [hD]; exact mul_div_cancel_left₀ s hv0.ne']
    rw [show (2 + f)/6 = h from hh.symm]
  · -- sector 3: (v1, v2, v)
    rw [if_neg (by decide), if_neg (by decide), if_neg (by decide), if_pos rfl]
    have hh : h = (3 + f) / 6 := by rw [hfdef]; push_cast; ring
    set A := v * (1 - s * f) with hA
    set B := v * (1 - s) with hB
    have hBA : B ≤ A := by
      rw [hA, hB]
      nlinarith [mul_nonneg (mul_nonneg hv0.le hs0.le) (show (0:ℚ) ≤ 1 - f by linarith)]
    have hAv : A ≤ v := by
      rw [hA]; nlinarith [mul_nonneg (mul_nonneg hv0.le hs0.le) hf0]
    have hBv : B < v := by
      rw [hB]; nlinarith [mul_pos hv0 hs0]
    simp only [rgb_to_hsv]
    rw [min_eq_left hAv, min_eq_left hBA, max_eq_right hAv, max_eq_right hBv.le]
    have hD : v - B = v * s := by rw [hB]; ring
    have hDne : ¬(v - B = 0) := by rw [hD]; exact (mul_pos hv0 hs0).ne'
    rw [if_neg hDne, if_neg hBv.ne]
    by_cases hgreen : A = v
    · rw [if_pos hgreen]
      have hsf : s * f = 0 := by
        have h1 : v * (s * f) = 0 := by rw [hA] at hgreen; nlinarith [hgreen]
        rcases mul_eq_zero.mp h1 with h2 | h2
        · exact absurd h2 hv0.ne'
        · exact h2
      have hfz : f = 0 := by
        rcases mul_eq_zero.mp hsf with h2 | h2
        · exact absurd h2 hs0.ne'
        · exact h2
      have hhue : 1/3 + ((v - B)/6 + (v - B)/2)/(v - B) - ((v - v)/6 + (v - B)/2)/(v - B)
          = 1/2 := by
        rw [hD]
        have hvs : v * s ≠ 0 := (mul_pos hv0 hs0).ne'
        field_simp
        ring
      rw [hhue]
      rw [if_neg (by norm_num), if_neg (by norm_num)]
      rw [show (v - B)/v = s from by rw [hD]; exact mul_div_cancel_left₀ s hv0.ne']
      have : (1:ℚ)/2 = h := by rw [hh, hfz]; norm_num
      rw [this]
    · rw [if_neg hgreen]
      have hhue : 2/3 + ((v - A)/6 + (v - B)/2)/(v - B) - ((v - B)/6 + (v - B)/2)/(v - B)
          = (3 + f)/6 := by
        rw [hA, hB]
        have hvs : v * s ≠ 0 := (mul_pos hv0 hs0).ne'
        field_simp
        ring
      rw [hhue]
      rw [if_neg (not_lt.mpr (by linarith : (0:ℚ) ≤ (3 + f)/6))]
      rw [if_neg (not_lt.mpr (by linarith : (3 + f)/6 ≤ 1))]
      rw [show (v - B)/v = s from by rw [hD]; exact mul_div_cancel_left₀ s hv0.ne']
      rw [show (3 + f)/6 = h from hh.symm]
  · -- sector 4: (v3, v1, v)
    rw [if_neg (by decide), if_neg (by decide), if_neg (by decide), if_neg (by decide),
      if_pos rfl]
    have hh : h = (4 + f) / 6 := by rw [hfdef]; push_cast; ring
    set C := v * (1 - s * (1 - f)) with hC
    set B := v * (1 - s) with hB
    have hBC : B ≤ C := by
      rw [hC, hB]; nlinarith [mul_nonneg (mul_nonneg hv0.le hs0.le) hf0]
    have hCv : C < v := by
      rw [hC]; nlinarith [mul_pos (mul_pos hv0 hs0) (show (0:ℚ) < 1 - f by linarith)]
    have hBv : B < v := by
      rw [hB]; nlinarith [mul_pos hv0 hs0]
    simp only [rgb_to_hsv]
    rw [min_eq_left hBv.le, min_eq_right hBC, max_eq_right hBv.le, max_eq_right hCv.le]
    have hD : v - B = v * s := by rw [hB]; ring
    have hDne : ¬(v - B = 0) := by rw [hD]; exact (mul_pos hv0 hs0).ne'
    rw [if_neg hDne, if_neg hCv.ne, if_neg hBv.ne]
    have hhue : 2/3 + ((v - B)/6 + (v - B)/2)/(v - B) - ((v - C)/6 + (v - B)/2)/(v - B)
        = (4 + f)/6 := by
      rw [hC, hB]
      have hvs : v * s ≠ 0 := (mul_pos hv0 hs0).ne'
      field_simp
      ring
    rw [hhue]
    rw [if_neg (not_lt.mpr (by linarith : (0:ℚ) ≤ (4 + f)/6))]
    rw [if_neg (not_lt.mpr (by linarith : (4 + f)/6 ≤ 1))]
    rw [show (v - B)/v = s from by rw [hD]; exact mul_div_cancel_left₀ s hv0.ne']
    rw [show (4 + f)/6 = h from hh.symm]
  · -- sector 5: (v, v1, v2)
    rw [if_neg (by decide), if_neg (by decide), if_neg (by decide), if_neg (by decide),
      if_neg (by decide)]
    have hh : h = (5 + f) / 6 := by rw [hfdef]; push_cast; ring
    set A := v * (1 - s * f) with hA
    set B := v * (1 - s) with hB
    have hBA : B ≤ A := by
      rw [hA, hB]
      nlinarith [mul_nonneg (mul_nonneg hv0.le hs0.le) (show (0:ℚ) ≤ 1 - f by linarith)]
    have hAv : A ≤ v := by
      rw [hA]; nlinarith [mul_nonneg (mul_nonneg hv0.le hs0.le) hf0]
    have hBv : B < v := by
      rw [hB]; nlinarith [mul_pos hv0 hs0]
    simp only [rgb_to_hsv]
    rw [min_eq_left hBA, min_eq_right hBv.le, max_eq_right hBA, max_eq_left hAv]
    have hD : v - B = v * s := by rw [hB]; ring
    have hDne : ¬(v - B = 0) := by rw [hD]; exact (mul_pos hv0 hs0).ne'
    rw [if_neg hDne, if_pos rfl]
    have hhue : ((v - A)/6 + (v - B)/2)/(v - B) - ((v - B)/6 + (v - B)/2)/(v - B)
        = (f - 1)/6 := by
      rw [hA, hB]
      have hvs : v * s ≠ 0 := (mul_pos hv0 hs0).ne'
      field_simp
      ring
    rw [hhue]
    rw [if_pos (by linarith : (f - 1)/6 < 0)]
    rw [show (v - B)/v = s from by rw [hD]; exact mul_div_cancel_left₀ s hv0.ne']
    rw [show (f - 1)/6 + 1 = h from by rw [hh]; ring]

/-! ## Claim C7: unit-interval invariant of `Color` -/

/-- Conversion between any two spaces preserves the unit cube, given that
the two external-husl-library-based wrappers do. -/
theorem convert_mem (hl rl : Coords → Coords)
    (H1 : ∀ c, inUnit c → inUnit (husl_to_rgb hl c))
    (H2 : ∀ c, inUnit c → inUnit (rgb_to_husl rl c))
    (source target : Space) (c : Coords) (hc : inUnit c) :
    inUnit (convert_color_space hl rl source target c) := by
  unfold convert_color_space
  have h1 : inUnit (space_to_rgb hl source c) := by
    cases source with
    | rgb => exact hc
    | hsv => exact hsv_to_rgb_mem c hc
    | husl => exact H1 c hc
  cases target with
  | rgb => exact h1
  | hsv => exact rgb_to_hsv_mem _ h1
  | husl => exact H2 _ h1

/-- C7: every coordinate lies in `[0, 1]` after construction; constructing
from out-of-range coordinates equals constructing from pre-clamped
coordinates; and every coordinate stays in `[0, 1]` after
`set_coordinate` through any foreign color space.  The two hypotheses are
the spec's assumption (§4.1, §6) about the external husl library: its two
wrapped conversions map unit-range inputs to unit-range outputs. -/
theorem c7_unit_interval (hl rl : Coords → Coords)
    (H1 : ∀ c, inUnit c → inUnit (husl_to_rgb hl c))
    (H2 : ∀ c, inUnit c → inUnit (rgb_to_husl rl c)) :
    (∀ (sp : Space) (co : Coords), inUnit (Color.make sp co).coordinates) ∧
    (∀ (sp : Space) (co : Coords), Color.make sp co
        = Color.make sp (clamp co.1 0 1, clamp co.2.1 0 1, clamp co.2.2 0 1)) ∧
    (∀ (c : Color) (sp : Space) (idx : Fin 3) (v : ℚ), inUnit c.coordinates →
        inUnit ((Color.set_coordinate hl rl c sp idx v).coordinates)) := by
  refine ⟨?_, ?_, ?_⟩
  · intro sp co
    exact ⟨(clamp01_mem _).1, (clamp01_mem _).2, (clamp01_mem _).1, (clamp01_mem _).2,
      (clamp01_mem _).1, (clamp01_mem _).2⟩
  · intro sp co
    have e : ∀ q : ℚ, clamp (clamp q 0 1) 0 1 = clamp q 0 1 := fun q =>
      clamp01_eq_self _ (clamp01_mem q).1 (clamp01_mem q).2
    simp [Color.make, e]
  · intro c sp idx v hc
    have hsh : inUnit (convert_color_space hl rl c.space sp c.coordinates) :=
      convert_mem hl rl H1 H2 _ _ _ hc
    obtain ⟨a1, a2, a3, a4, a5, a6⟩ := hsh
    have hcl := clamp01_mem v
    show inUnit (convert_color_space hl rl sp c.space
      (coordSet (convert_color_space hl rl c.space sp c.coordinates) idx (clamp v 0 1)))
    apply convert_mem hl rl H1 H2
    fin_cases idx
    · exact ⟨hcl.1, hcl.2, a3, a4, a5, a6⟩
    · exact ⟨a1, a2, hcl.1, hcl.2, a5, a6⟩
    · exact ⟨a1, a2, a3, a4, hcl.1, hcl.2⟩

/-- C7 witness: the theorem instantiated at a constant-zero husl library,
for which both library hypotheses hold. -/
theorem c7_unit_interval_witness :
    (∀ (sp : Space) (co : Coords), inUnit (Color.make sp co).coordinates) ∧
    (∀ (sp : Space) (co : Coords), Color.make sp co
        = Color.make sp (clamp co.1 0 1, clamp co.2.1 0 1, clamp co.2.2 0 1)) ∧
    (∀ (c : Color) (sp : Space) (idx : Fin 3) (v : ℚ), inUnit c.coordinates →
        inUnit ((Color.set_coordinate (fun _ => ((0:ℚ), (0:ℚ), (0:ℚ)))
          (fun _ => ((0:ℚ), (0:ℚ), (0:ℚ))) c sp idx v).coordinates)) :=
  c7_unit_interval (fun _ => ((0:ℚ), (0:ℚ), (0:ℚ))) (fun _ => ((0:ℚ), (0:ℚ), (0:ℚ)))
    (fun c _ => by
      obtain ⟨a, b, d⟩ := c
      exact ⟨le_refl 0, zero_le_one, le_refl 0, zero_le_one, le_refl 0, zero_le_one⟩)
    (fun c _ => by
      obtain ⟨a, b, d⟩ := c
      norm_num [rgb_to_husl, inUnit])

/-! ## Claim C9: `add_hue_hsv` -/

/-- C9 counterexample: for the gray HSV color `(0.3, 0.0, 0.5)` and
`delta = 0.25`, `add_hue_hsv` returns hue `0`: the conversion to HSV (a
round trip through RGB, since `space_to_rgb_map['hsv']` and
`rgb_to_space_map['hsv']` are `hsv_to_rgb` and `rgb_to_hsv`, not the
identity) collapses a gray's hue to 0, so the result's hue equals neither
`(HSV hue of c) + delta mod 1` (= 0.25, reading the HSV hue off
`get_coordinate('hsv', 0)`) nor `(stored hue) + delta mod 1` (= 0.55),
refuting the claim for every Color. -/
theorem c9_gray_hue_collapses :
    (add_hue_hsv (fun x => x) (fun x => x) (Color.make .hsv (3/10, 0, 1/2)) (1/4)).coordinates.1
      = 0 ∧
    pymod1 ((Color.make .hsv (3/10, 0, 1/2)).get_coordinate (fun x => x) (fun x => x) .hsv 0
      + 1/4) = 1/4 ∧
    pymod1 ((Color.make .hsv (3/10, 0, 1/2)).coordinates.1 + 1/4) = 11/20 ∧
    ((0 : ℚ) ≠ 1/4) ∧ ((0 : ℚ) ≠ 11/20) := by
  refine ⟨?_, ?_, ?_, by norm_num, by norm_num⟩
  · norm_num [add_hue_hsv, Color.make, Color.in_color_space, Color.get_coordinate,
      Color.set_coordinate, convert_color_space, space_to_rgb, rgb_to_space, hsv_to_rgb,
      rgb_to_hsv, coordGet, coordSet, clamp, pymod1, pytrunc]
  · norm_num [Color.make, Color.get_coordinate, convert_color_space, space_to_rgb,
      rgb_to_space, hsv_to_rgb, rgb_to_hsv, coordGet, clamp, pymod1, pytrunc]
  · norm_num [Color.make, clamp, pymod1, pytrunc]

/-- C9 (amended): for every Color `c` whose HSV representation
(`c.in_hsv()`'s coordinates) has hue `< 1`, saturation `> 0` and value
`> 0` (i.e. non-gray; for grays the round trip through RGB collapses the
hue to 0, see the counterexample), `add_hue_hsv(c, delta)` returns an
HSV-space Color whose hue axis is `(hsv-hue of c + delta) mod 1.0`, always
in `[0, 1)`, with saturation and value unchanged; in particular
`add_hue_hsv(c, 1.0)` leaves the hue equal to the original HSV hue. -/
theorem c9_add_hue_hsv_amended (hl rl : Coords → Coords) (c : Color) (d : ℚ)
    (hhue : (c.in_color_space hl rl .hsv).coordinates.1 < 1)
    (hsat : 0 < (c.in_color_space hl rl .hsv).coordinates.2.1)
    (hval : 0 < (c.in_color_space hl rl .hsv).coordinates.2.2) :
    (add_hue_hsv hl rl c d).space = .hsv ∧
    (add_hue_hsv hl rl c d).coordinates
      = (pymod1 ((c.in_color_space hl rl .hsv).coordinates.1 + d),
         (c.in_color_space hl rl .hsv).coordinates.2.1,
         (c.in_color_space hl rl .hsv).coordinates.2.2) ∧
    0 ≤ pymod1 ((c.in_color_space hl rl .hsv).coordinates.1 + d) ∧
    pymod1 ((c.in_color_space hl rl .hsv).coordinates.1 + d) < 1 ∧
    (add_hue_hsv hl rl c 1).coordinates.1
      = (c.in_color_space hl rl .hsv).coordinates.1 := by
  have hco : (c.in_color_space hl rl .hsv).coordinates
      = ((c.in_color_space hl rl .hsv).coordinates.1,
         (c.in_color_space hl rl .hsv).coordinates.2.1,
         (c.in_color_space hl rl .hsv).coordinates.2.2) := rfl
  set C1 := (c.in_color_space hl rl .hsv).coordinates.1 with hC1
  set C2 := (c.in_color_space hl rl .hsv).coordinates.2.1 with hC2
  set C3 := (c.in_color_space hl rl .hsv).coordinates.2.2 with hC3
  have h10 : 0 ≤ C1 := (clamp01_mem _).1
  have hconv : convert_color_space hl rl (c.in_color_space hl rl .hsv).space Space.hsv
      (c.in_color_space hl rl .hsv).coordinates
      = (c.in_color_space hl rl .hsv).coordinates := by
    show rgb_to_hsv (hsv_to_rgb (c.in_color_space hl rl .hsv).coordinates)
      = (c.in_color_space hl rl .hsv).coordinates
    rw [hco]
    exact hsv_roundtrip C1 C2 C3 h10 hhue hsat hval
  have key : ∀ dd : ℚ, add_hue_hsv hl rl c dd = ⟨Space.hsv, (pymod1 (C1 + dd), C2, C3)⟩ := by
    intro dd
    have hget : (c.in_color_space hl rl .hsv).get_coordinate hl rl .hsv 0 = C1 := by
      unfold Color.get_coordinate
      rw [hconv, hco]
      rfl
    have hadd : add_hue_hsv hl rl c dd
        = (c.in_color_space hl rl .hsv).set_coordinate hl rl .hsv 0
            (pymod1 ((c.in_color_space hl rl .hsv).get_coordinate hl rl .hsv 0 + dd)) := rfl
    rw [hadd, hget]
    have hclamp : clamp (pymod1 (C1 + dd)) 0 1 = pymod1 (C1 + dd) :=
      clamp01_eq_self _ (pymod1_nonneg _) (pymod1_lt_one _).le
    unfold Color.set_coordinate
    rw [hclamp, hconv, hco]
    dsimp only [coordSet]
    have hconv2 : convert_color_space hl rl Space.hsv (c.in_color_space hl rl .hsv).space
        (pymod1 (C1 + dd), C2, C3) = (pymod1 (C1 + dd), C2, C3) := by
      show rgb_to_hsv (hsv_to_rgb (pymod1 (C1 + dd), C2, C3)) = _
      exact hsv_roundtrip _ C2 C3 (pymod1_nonneg _) (pymod1_lt_one _) hsat hval
    congr 1
  refine ⟨by rw [key d], by rw [key d], pymod1_nonneg _, pymod1_lt_one _, ?_⟩
  rw [key 1]
  show pymod1 (C1 + 1) = C1
  exact pymod1_add_one C1 h10 hhue

/-- C9 witness: the amended theorem instantiated at the non-gray HSV color
`(0.3, 0.5, 0.5)` with `delta = 0.25` and an identity husl library; all
three hypotheses hold there. -/
theorem c9_add_hue_hsv_amended_witness :
    (add_hue_hsv (fun x => x) (fun x => x) (Color.make .hsv (3/10, 1/2, 1/2)) (1/4)).space
      = .hsv ∧
    (add_hue_hsv (fun x => x) (fun x => x) (Color.make .hsv (3/10, 1/2, 1/2)) (1/4)).coordinates
      = (pymod1 (((Color.make .hsv (3/10, 1/2, 1/2)).in_color_space (fun x => x) (fun x => x)
            .hsv).coordinates.1 + 1/4),
         ((Color.make .hsv (3/10, 1/2, 1/2)).in_color_space (fun x => x) (fun x => x)
            .hsv).coordinates.2.1,
         ((Color.make .hsv (3/10, 1/2, 1/2)).in_color_space (fun x => x) (fun x => x)
            .hsv).coordinates.2.2) ∧
    0 ≤ pymod1 (((Color.make .hsv (3/10, 1/2, 1/2)).in_color_space (fun x => x) (fun x => x)
            .hsv).coordinates.1 + 1/4) ∧
    pymod1 (((Color.make .hsv (3/10, 1/2, 1/2)).in_color_space (fun x => x) (fun x => x)
            .hsv).coordinates.1 + 1/4) < 1 ∧
    (add_hue_hsv (fun x => x) (fun x => x) (Color.make .hsv (3/10, 1/2, 1/2)) 1).coordinates.1
      = ((Color.make .hsv (3/10, 1/2, 1/2)).in_color_space (fun x => x) (fun x => x)
            .hsv).coordinates.1 :=
  c9_add_hue_hsv_amended (fun x => x) (fun x => x) (Color.make .hsv (3/10, 1/2, 1/2)) (1/4)
    (by norm_num [Color.make, Color.in_color_space, convert_color_space, space_to_rgb,
      rgb_to_space, hsv_to_rgb, rgb_to_hsv, clamp, pytrunc])
    (by norm_num [Color.make, Color.in_color_space, convert_color_space, space_to_rgb,
      rgb_to_space, hsv_to_rgb, rgb_to_hsv, clamp, pytrunc])
    (by norm_num [Color.make, Color.in_color_space, convert_color_space, space_to_rgb,
      rgb_to_space, hsv_to_rgb, rgb_to_hsv, clamp, pytrunc])

end ColorOrganist
